import Mathlib

/-!
Verification of the `intelligent-schema` query pipeline against its specification.

Each subsystem named by the claims is shallowly embedded from the Python source:

* `app/guardrails.py`      — `GuardrailEngine._extract_metrics`, `_apply_rules`, `guardrail_check`
* `app/rate_limiter.py`    — `RateLimiter.allow`
* `app/llm_reasoner.py`    — `LLMReasoner._enforce_schema_bounds`, `reason_schema_with_llm`
* `app/schema_selector.py` — `select_schema_slice`, `_extract_fk_column`
* `app/sql_generator.py`   — `SQLGenerator._build_where_clauses`, `_compose_sql`, `generate`
* `app/sql_validator.py`   — `SQLValidator.validate_and_sanitize` and its enforcement helpers
* `app/audit.py` + `app/pipeline.py` — the audit tail of `QueryPipeline.handle`
* `app/schema_extractor.py` — `SchemaExtractor.get_schema_snapshot`

Python machine integers are arbitrary precision, so counters are `Nat`; timestamps and
planner estimates are modelled over `ℚ` (the Python code compares `time.time()` floats
and EXPLAIN numbers whose values in all scenarios of interest are exactly representable).
-/

namespace Spec2Proof

/-! ## Guardrail engine (`app/guardrails.py`)

`_run_explain` returns the decoded first element of the EXPLAIN (FORMAT JSON) output,
a JSON object that may or may not carry a `"Plan"` object, which in turn may or may
not carry the metric keys.  The decoded plan is modelled by `ExplainPlan`: `none`
for a missing `"Plan"` key, and inside `PlanObj` each metric key is an `Option`. -/

structure SQLGuardrailConfig where
  rowThreshold : ℚ
  costThreshold : ℚ
  disallowedFunctions : List String

/-- The `"Plan"` object of the decoded EXPLAIN output: each field models one of the
keys read by `_extract_metrics`, `none` when the key is absent. -/
structure PlanObj where
  planRows : Option ℚ
  planWidth : Option ℚ
  totalCost : Option ℚ
  nodeType : Option String

/-- The decoded EXPLAIN output as consumed by `_extract_metrics`: `none` models a
JSON object with no `"Plan"` key (Python `plan.get("Plan", {})` then yields `{}`). -/
abbrev ExplainPlan := Option PlanObj

structure GuardMetrics where
  planRows : ℚ
  planWidth : ℚ
  totalCost : ℚ
  nodeType : String
deriving DecidableEq

/-- Python `str.lower()`: per-character lowercasing (the strings the code
compares are ASCII, where `Char.toLower` agrees with Python). -/
def strLower (s : String) : String := ⟨s.data.map Char.toLower⟩

/-- `GuardrailEngine._extract_metrics`: reads `"Plan Rows"`, `"Plan Width"`,
`"Total Cost"`, `"Node Type"` from the `"Plan"` object with defaults `0`, `0`,
`0.0`, `""`. -/
def extractMetrics (plan : ExplainPlan) : GuardMetrics :=
  match plan with
  | none =>
      { planRows := 0, planWidth := 0, totalCost := 0, nodeType := "" }
  | some root =>
      { planRows := root.planRows.getD 0
        planWidth := root.planWidth.getD 0
        totalCost := root.totalCost.getD 0
        nodeType := root.nodeType.getD "" }

/-- `GuardrailEngine._apply_rules`: reject (return `false`) when the estimated rows
exceed `row_threshold`, the total cost exceeds `cost_threshold`, or the root node is
a sequential scan (case-insensitive) with rows above a tenth of `row_threshold`. -/
def applyRules (cfg : SQLGuardrailConfig) (metrics : GuardMetrics) : Bool :=
  if metrics.planRows > cfg.rowThreshold then false
  else if metrics.totalCost > cfg.costThreshold then false
  else if strLower metrics.nodeType = "seq scan" ∧ metrics.planRows > cfg.rowThreshold / 10 then false
  else true

/-- `GuardrailEngine.guardrail_check` after `_run_explain`: extract the metrics,
apply the rules, and return the verdict together with the metrics. -/
def guardrailCheck (cfg : SQLGuardrailConfig) (plan : ExplainPlan) : Bool × GuardMetrics :=
  let metrics := extractMetrics plan
  (applyRules cfg metrics, metrics)

/-! ## Rate limiter (`app/rate_limiter.py`) -/

structure SecurityConfig where
  enableRateLimiting : Bool
  maxRequestsPerMinute : Nat

/-- `RateLimiter._window` is the constant 60 seconds. -/
def rateWindow : ℚ := 60

/-- `RateLimiter.allow` for a single key: the per-key deque of timestamps is the
state.  When rate limiting is disabled the method returns `True` before touching
the deque; otherwise it pops entries older than `now - 60` from the front, answers
`False` if the deque is full, and otherwise records `now` and answers `True`. -/
def allowStep (cfg : SecurityConfig) (queue : List ℚ) (now : ℚ) : Bool × List ℚ :=
  if cfg.enableRateLimiting = false then (true, queue)
  else
    let q := queue.dropWhile (fun t => decide (t < now - rateWindow))
    if cfg.maxRequestsPerMinute ≤ q.length then (false, q)
    else (true, q ++ [now])

/-- Successive `allow` calls for one key at the given times, from the given deque. -/
def runAllows (cfg : SecurityConfig) (queue : List ℚ) : List ℚ → List Bool × List ℚ
  | [] => ([], queue)
  | t :: ts =>
      let step := allowStep cfg queue t
      let rest := runAllows cfg step.2 ts
      (step.1 :: rest.1, rest.2)

/-! ## LLM reasoner schema bounds (`app/llm_reasoner.py`)

Only the shape inspected by `_enforce_schema_bounds` is modelled: the slice's
`tables` mapping is reduced to each table's column-name keys, and the reasoner
result to its `relevant_tables` list and its `schema_context` mapping reduced to
each context entry's `columns` list. -/

structure SchemaSliceTables where
  tables : List (String × List String)

structure ReasonerOutput where
  relevantTables : List String
  schemaContext : List (String × List String)

/-- The first loop of `_enforce_schema_bounds`: raise on the first entry of
`relevant_tables` that is not a key of `slice.tables`. -/
def checkRelevantTables (allowedTables : List String) : List String → Except String Unit
  | [] => .ok ()
  | t :: rest =>
      if allowedTables.contains t then checkRelevantTables allowedTables rest
      else .error ("LLM referenced unknown table " ++ t)

/-- The inner loop of `_enforce_schema_bounds`: raise on the first listed column
that is not a key of the slice table's `columns`. -/
def checkColumns (table : String) (allowedColumns : List String) : List String → Except String Unit
  | [] => .ok ()
  | c :: rest =>
      if allowedColumns.contains c then checkColumns table allowedColumns rest
      else .error ("LLM referenced unknown column " ++ table ++ "." ++ c)

/-- The second loop of `_enforce_schema_bounds`: every `schema_context` key must be
a slice table (checked first), and every column in its payload must be a column of
that slice table (the direct index `schema_slice["tables"][table]` cannot fail
after the membership check; the `getD []` default is that dead branch). -/
def checkSchemaContext (slice : List (String × List String)) (allowedTables : List String) :
    List (String × List String) → Except String Unit
  | [] => .ok ()
  | (t, cols) :: rest =>
      if allowedTables.contains t then
        match checkColumns t ((slice.lookup t).getD []) cols with
        | .ok () => checkSchemaContext slice allowedTables rest
        | .error e => .error e
      else .error ("LLM referenced unknown context table " ++ t)

/-- `LLMReasoner._enforce_schema_bounds`. -/
def enforceSchemaBounds (result : ReasonerOutput) (slice : SchemaSliceTables) : Except String Unit :=
  let allowedTables := slice.tables.map Prod.fst
  match checkRelevantTables allowedTables result.relevantTables with
  | .error e => .error e
  | .ok () => checkSchemaContext slice.tables allowedTables result.schemaContext

/-- `LLMReasoner.reason_schema_with_llm` after the LLM call: `structuralErrors` is
the list of Draft-7 validation error messages returned by
`reasoner_validator.iter_errors(result)`; if nonempty the result is rejected, then
the schema bounds are enforced, and only then is the result returned. -/
def reasonSchemaWithLlm (structuralErrors : List String) (result : ReasonerOutput)
    (slice : SchemaSliceTables) : Except String ReasonerOutput :=
  if structuralErrors.isEmpty then
    match enforceSchemaBounds result slice with
    | .error e => .error e
    | .ok () => .ok result
  else .error ("Reasoner returned invalid schema: " ++ String.intercalate "; " structuralErrors)

/-! ## Schema slicer (`app/schema_selector.py`)

The snapshot's table metadata values are kept abstract (`μ`); the two aspects of a
meta value the selector observes are supplied as functions: `size` models
`len(json.dumps(meta).encode("utf-8"))` (the UTF-8 byte length of the JSON
serialization, computed by the external `json` library) and `falsy` models Python
truthiness (`if not meta: continue`, which skips both a missing and an empty
meta). -/

structure ForeignKeyRow where
  constraintName : String
  definition : String
  table : String
  foreignTable : String

structure Snapshot (μ : Type) where
  tables : List (String × μ)
  foreignKeys : List ForeignKeyRow

structure SchemaSliceOut (μ : Type) where
  tables : List (String × μ)
  foreignKeys : List (String × String × String × String)

/-- Python dict assignment `d[k] = v`: replace the value at an existing key in
place, else append the binding. -/
def dictInsert {μ : Type} (k : String) (v : μ) : List (String × μ) → List (String × μ)
  | [] => [(k, v)]
  | (k', v') :: rest => if k' = k then (k, v) :: rest else (k', v') :: dictInsert k v rest

/-- `_extract_fk_column`: split the constraint definition on `(`, take the
parenthesized content at the given index, cut at `)` and strip; any failure
(Python `IndexError`) yields the empty string. -/
def extractFkColumn (definition : String) (index : Nat) : String :=
  match (definition.splitOn "(").get? index with
  | some part => ((part.splitOn ")").headD "").trim
  | none => ""

/-- The accumulation loop of `select_schema_slice`: walk the ranked table ids,
skip ids with a missing or falsy meta, accumulate each serialized size into
`total`, `break` on the first exceedance of the byte budget, and otherwise store
the meta in the slice dict. -/
def sliceLoop {μ : Type} (size : μ → Nat) (falsy : μ → Bool) (tables : List (String × μ))
    (maxBytes : Nat) : List String → Nat → List (String × μ) → List (String × μ)
  | [], _, acc => acc
  | tid :: rest, total, acc =>
      match tables.lookup tid with
      | none => sliceLoop size falsy tables maxBytes rest total acc
      | some meta =>
          if falsy meta then sliceLoop size falsy tables maxBytes rest total acc
          else
            let total' := total + size meta
            if total' > maxBytes then acc
            else sliceLoop size falsy tables maxBytes rest total' (dictInsert tid meta acc)

/-- `select_schema_slice`: the byte-budgeted table walk followed by the projection
of the snapshot's foreign keys whose two endpoint tables both made it into the
slice, each flattened to `(table, left column, foreign table, right column)`. -/
def selectSchemaSlice {μ : Type} (size : μ → Nat) (falsy : μ → Bool) (snapshot : Snapshot μ)
    (tableIds : List String) (maxBytes : Nat) : SchemaSliceOut μ :=
  let sliceTables := sliceLoop size falsy snapshot.tables maxBytes tableIds 0 []
  let keys := sliceTables.map Prod.fst
  let fkSet := (snapshot.foreignKeys.filter
      (fun fk => keys.contains fk.table && keys.contains fk.foreignTable)).map
      (fun fk => (fk.table, extractFkColumn fk.definition 1,
                  fk.foreignTable, extractFkColumn fk.definition 2))
  { tables := sliceTables, foreignKeys := fkSet }

/-- Total serialized size of a slice's tables,
`sum(len(json.dumps(meta).encode("utf-8")) for meta in slice.tables.values())`. -/
def sumSizes {μ : Type} (size : μ → Nat) (tables : List (String × μ)) : Nat :=
  (tables.map (fun p => size p.2)).sum

/-! ## SQL generator (`app/sql_generator.py`)

`_build_where_clauses` works on `query_intent.lower()` with two `re.search`
patterns and a `dateutil` parse.  Both regexes are embedded as leftmost-match
scanners over the character list:

* `last (\d+) day` — a literal `"last "`, one or more digits, a literal `" day"`.
  The greedy `\d+` cannot backtrack into a successful match of the following
  literal (a digit is not a space), so a match at a position is exactly a maximal
  digit run bracketed by the two literals.
* `(\d{4}-\d{2}-\d{2})` — ten characters in digit/dash shape, no lookarounds.

`dateutil.parser.parse` on a `YYYY-MM-DD` token assigns year, month and day
positionally (the leading 4-digit token is the year) and lets
`datetime.datetime` range-check them, so it succeeds exactly on valid proleptic
Gregorian dates with year in 1..9999, and `.date().isoformat()` returns the
zero-padded input string unchanged. -/

/-- A single quote character, written via its code point. -/
def sq : String := "\x27"

/-- Consume the literal `lit` from the front of `cs`. -/
def dropLiteral : List Char → List Char → Option (List Char)
  | [], cs => some cs
  | _ :: _, [] => none
  | l :: ls, c :: cs => if c = l then dropLiteral ls cs else none

/-- Digit characters to the number they denote (Python `int` on a digit string). -/
def charsToNat (ds : List Char) : Nat :=
  ds.foldl (fun acc c => acc * 10 + (c.toNat - 48)) 0

/-- Match `last (\d+) day` anchored at the front of `cs`, returning the captured
number. -/
def tryLastDayAt (cs : List Char) : Option Nat :=
  match dropLiteral "last ".toList cs with
  | none => none
  | some rest =>
      let digits := rest.takeWhile Char.isDigit
      if digits.isEmpty then none
      else
        match dropLiteral " day".toList (rest.dropWhile Char.isDigit) with
        | some _ => some (charsToNat digits)
        | none => none

/-- `re.search(r"last (\d+) day", lowered)`: leftmost match, captured group as a
number. -/
def findLastDay : List Char → Option Nat
  | [] => none
  | c :: rest =>
      match tryLastDayAt (c :: rest) with
      | some n => some n
      | none => findLastDay rest

/-- Match `\d{4}-\d{2}-\d{2}` anchored at the front of `cs`, returning year,
month, day and the matched ten-character text. -/
def tryIsoDateAt : List Char → Option (Nat × Nat × Nat × String)
  | y1 :: y2 :: y3 :: y4 :: h1 :: m1 :: m2 :: h2 :: d1 :: d2 :: _ =>
      if ([y1, y2, y3, y4, m1, m2, d1, d2].all Char.isDigit) && h1 = '-' && h2 = '-' then
        some (charsToNat [y1, y2, y3, y4], charsToNat [m1, m2], charsToNat [d1, d2],
              String.mk [y1, y2, y3, y4, h1, m1, m2, h2, d1, d2])
      else none
  | _ => none

/-- `re.search(r"(\d{4}-\d{2}-\d{2})", lowered)`: leftmost match. -/
def findIsoDate : List Char → Option (Nat × Nat × Nat × String)
  | [] => none
  | c :: rest =>
      match tryIsoDateAt (c :: rest) with
      | some r => some r
      | none => findIsoDate rest

def isLeapYear (y : Nat) : Bool :=
  (y % 4 = 0 && y % 100 ≠ 0) || y % 400 = 0

def daysInMonth (y m : Nat) : Nat :=
  if m = 2 then (if isLeapYear y then 29 else 28)
  else if m = 4 || m = 6 || m = 9 || m = 11 then 30
  else 31

/-- The dates accepted by `dateutil.parser.parse` / `datetime.date` for a
`YYYY-MM-DD` token: year 1..9999, month 1..12, day within the month. -/
def validYmd (y m d : Nat) : Bool :=
  1 ≤ y && y ≤ 9999 && 1 ≤ m && m ≤ 12 && 1 ≤ d && d ≤ daysInMonth y m

def intervalClause (days : Nat) : String :=
  "created_at >= CURRENT_DATE - INTERVAL " ++ sq ++ toString days ++ " days" ++ sq

def activeClause : String := "status = " ++ sq ++ "active" ++ sq

def dateClause (iso : String) : String := "created_at >= DATE " ++ sq ++ iso ++ sq

/-- Does `hay` start with `needle`? -/
def listStartsWith : List Char → List Char → Bool
  | [], _ => true
  | _ :: _, [] => false
  | n :: ns, h :: hs => n = h && listStartsWith ns hs

/-- Does `hay` contain `needle` as a contiguous run? -/
def listContainsSub (needle : List Char) : List Char → Bool
  | [] => needle.isEmpty
  | c :: rest => listStartsWith needle (c :: rest) || listContainsSub needle rest

/-- Python substring containment `needle in hay`. -/
def strContains (hay needle : String) : Bool := listContainsSub needle.toList hay.toList

/-- `SQLGenerator._build_where_clauses`, clause appends in source order. -/
def buildWhereClauses (queryIntent : String) : List String :=
  let lowered := strLower queryIntent
  let cs := lowered.toList
  let clauses : List String := []
  let clauses :=
    if strContains lowered "last" && strContains lowered "day" then
      clauses ++ [intervalClause ((findLastDay cs).getD 30)]
    else clauses
  let clauses :=
    if strContains lowered "active" then clauses ++ [activeClause] else clauses
  let clauses :=
    match findIsoDate cs with
    | some (y, m, d, s) => if validYmd y m d then clauses ++ [dateClause s] else clauses
    | none => clauses
  clauses

/-- The WHERE heuristics exactly as the specification words them: an interval
clause when the intent contains both "last" and "day" (N captured by
`last (\d+) day`, default 30), a status clause when it contains "active", and a
date clause when it contains an ISO date that parses successfully, parse failures
silently skipped. -/
def whereClausesSpec (queryIntent : String) : List String :=
  let lowered := strLower queryIntent
  let cs := lowered.toList
  (if strContains lowered "last" && strContains lowered "day" then
      [intervalClause ((findLastDay cs).getD 30)]
    else []) ++
  (if strContains lowered "active" then [activeClause] else []) ++
  (match findIsoDate cs with
   | some (y, m, d, s) => if validYmd y m d then [dateClause s] else []
   | none => [])

/-- `SQLGenerator._build_select_columns`: up to the first five columns of each
relevant table, aliased; `["*"]` when empty. -/
def buildSelectColumns (schemaContext : List (String × List String))
    (relevantTables : List String) : List String :=
  let columns := relevantTables.flatMap (fun table =>
    (((schemaContext.lookup table).getD []).take 5).map (fun column =>
      table ++ "." ++ column ++ " AS " ++ (table.replace "." "_") ++ "_" ++ column))
  if columns.isEmpty then ["*"] else columns

/-- `SQLGenerator._build_from_clause`: the first relevant table as base, plus a
LEFT JOIN for each foreign-key 4-tuple whose two tables are both relevant; raises
when no tables were provided. -/
def buildFromClause (relevantTables : List String)
    (foreignKeysMap : List (String × String × String × String)) : Except String String :=
  match relevantTables with
  | [] => .error "No tables provided for SQL generation"
  | base :: _ =>
      let joins := foreignKeysMap.filterMap (fun fk =>
        let (lt, lc, rt, rc) := fk
        if relevantTables.contains lt && relevantTables.contains rt then
          some ("LEFT JOIN " ++ rt ++ " ON " ++ lt ++ "." ++ lc ++ " = " ++ rt ++ "." ++ rc)
        else none)
      .ok (String.intercalate " " (base :: joins))

/-- `SQLGenerator._compose_sql`. -/
def composeSql (selectCols : List String) (fromClause : String) (whereClauses : List String)
    (sampleLimit : Nat) : String :=
  let selectClause := String.intercalate (",\n       ") selectCols
  let whereClause :=
    if whereClauses.isEmpty then ""
    else "\nWHERE " ++ String.intercalate " AND " whereClauses
  let limitClause := "\nLIMIT " ++ toString sampleLimit
  "SELECT\n       " ++ selectClause ++ "\nFROM " ++ fromClause ++ whereClause ++ limitClause ++ ";"

structure SQLPlan where
  sql : String
  purpose : String
  expectedRows : String

/-- `SQLGenerator.generate`: build the pieces and return the single plan. -/
def generate (sampleLimit : Nat) (queryIntent : String)
    (schemaContext : List (String × List String)) (relevantTables : List String)
    (foreignKeysMap : List (String × String × String × String)) : Except String SQLPlan :=
  match buildFromClause relevantTables foreignKeysMap with
  | .error e => .error e
  | .ok fromClause =>
      .ok { sql := composeSql (buildSelectColumns schemaContext relevantTables) fromClause
                     (buildWhereClauses queryIntent) sampleLimit
            purpose := queryIntent
            expectedRows := "unknown" }

/-! ## SQL validator (`app/sql_validator.py`)

The validator operates on the AST returned by the external parser
`sqlglot.parse_one(sql, read="postgres")`.  The embedding keeps exactly the AST
shape the validator inspects:

* `SqlNode` — a generic expression node.  `lit` models `exp.Literal` (with its
  `is_number` flag), `func` models `exp.Func` subclasses together with the string
  `node.name` evaluates to, `node` models every other expression kind with its
  child list, as visited by `Expression.walk()`.
* `LimitNode` — an `exp.Limit` with its two optional args `this` and
  `expression`.  Modelled from sqlglot (external library): the parser stores a
  parsed `LIMIT n` count in the `expression` arg and leaves `this` unset; `this`
  holds a prefixed expression only when a `Limit` is built standalone.
* `SelectNode` — an `exp.Select` with the presence of its `from` arg, its
  optional `limit` arg, and the remaining walked children.
* `TopNode` — the parse result: a `Select` or any other statement kind. -/

inductive SqlNode where
  | lit (isNumber : Bool) (value : Nat)
  | func (name : String) (args : List SqlNode)
  | node (children : List SqlNode)

structure LimitNode where
  thisSlot : Option SqlNode
  exprSlot : Option SqlNode

structure SelectNode where
  hasFrom : Bool
  limit : Option LimitNode
  body : List SqlNode

inductive TopNode where
  | select (s : SelectNode)
  | nonSelect (children : List SqlNode)

mutual
/-- Does the walk of this node reach an `exp.Func` whose lower-cased name is in
the (already lower-cased) denylist? -/
def SqlNode.hasDisallowedFunc (lowered : List String) : SqlNode → Bool
  | .lit _ _ => false
  | .func name args =>
      lowered.contains (strLower name) || hasDisallowedFuncList lowered args
  | .node children => hasDisallowedFuncList lowered children

def hasDisallowedFuncList (lowered : List String) : List SqlNode → Bool
  | [] => false
  | n :: rest => n.hasDisallowedFunc lowered || hasDisallowedFuncList lowered rest
end

/-- All nodes reached by walking a select: its children plus the limit arg's
slots (the walk of the mutated tree in `_enforce_disallowed_functions`). -/
def SelectNode.hasDisallowedFunc (lowered : List String) (s : SelectNode) : Bool :=
  hasDisallowedFuncList lowered s.body ||
    (match s.limit with
     | none => false
     | some l =>
         hasDisallowedFuncList lowered (l.thisSlot.toList ++ l.exprSlot.toList))

/-- `SQLValidator._enforce_select_only`: the parsed node must be an `exp.Select`
and must carry a `from` arg. -/
def enforceSelectOnly : TopNode → Except String SelectNode
  | .select s =>
      if s.hasFrom then .ok s else .error "SELECT must include FROM clause"
  | .nonSelect _ => .error "Only SELECT statements are allowed"

/-- `SQLValidator._enforce_limit`: when no `limit` arg exists, inject
`exp.Limit(this=exp.Literal.number(max_limit))`; otherwise read `value = limit.this`
and require it to be a numeric literal, clamping by writing the `expression` arg
when it exceeds `max_limit`. -/
def enforceLimit (maxLimit : Nat) (s : SelectNode) : Except String SelectNode :=
  match s.limit with
  | none =>
      .ok { s with limit := some { thisSlot := some (.lit true maxLimit), exprSlot := none } }
  | some l =>
      match l.thisSlot with
      | some (.lit true n) =>
          if n > maxLimit then
            .ok { s with limit := some { l with exprSlot := some (.lit true maxLimit) } }
          else .ok s
      | _ => .error "LIMIT must be numeric literal"

/-- `SQLValidator._enforce_disallowed_functions`: lower-case the configured
denylist, walk the AST, and raise on any function node whose lower-cased name is
in it.  (The Python message interpolates the offending node's name; the model
keeps a fixed message.) -/
def enforceDisallowedFunctions (disallowed : List String) (s : SelectNode) :
    Except String SelectNode :=
  if s.hasDisallowedFunc (disallowed.map strLower) then
    .error "Function is not allowed"
  else .ok s

mutual
/-- A minimal stand-in for sqlglot's generator on the embedded nodes. -/
def SqlNode.render : SqlNode → String
  | .lit _ v => toString v
  | .func name args => name ++ "(" ++ String.intercalate ", " (renderList args) ++ ")"
  | .node children => String.intercalate " " (renderList children)

def renderList : List SqlNode → List String
  | [] => []
  | n :: rest => n.render :: renderList rest
end

/-- Rendering of the `limit` arg, following sqlglot's `limit_sql`: the `this` arg
is emitted as a prefix and the count is taken from the `expression` arg. -/
def renderLimit : Option LimitNode → String
  | none => ""
  | some l =>
      ((l.thisSlot.map SqlNode.render).getD "") ++ " LIMIT " ++
        ((l.exprSlot.map SqlNode.render).getD "")

def SelectNode.render (s : SelectNode) : String :=
  "SELECT " ++ String.intercalate ", " (renderList s.body) ++
    (if s.hasFrom then " FROM ..." else "") ++ renderLimit s.limit

/-- `SQLValidator.validate_and_sanitize` after a successful parse: enforce
SELECT-only, then the limit, then the function denylist (on the mutated tree),
and return the re-rendered SQL. -/
def validateAndSanitize (maxLimit : Nat) (disallowed : List String) (parsed : TopNode) :
    Except String String :=
  match enforceSelectOnly parsed with
  | .error e => .error e
  | .ok s =>
      match enforceLimit maxLimit s with
      | .error e => .error e
      | .ok s' =>
          match enforceDisallowedFunctions disallowed s' with
          | .error e => .error e
          | .ok s'' => .ok s''.render

/-- Modelled from sqlglot (external library): parsing
`SELECT id FROM users LIMIT 1000` with `read="postgres"` yields an `exp.Select`
with a `from` arg and `limit=Limit(this=None, expression=Literal.number(1000))` —
the count sits in the `expression` arg, `this` is `None`. -/
def parsedSelectLimit1000 : TopNode :=
  .select { hasFrom := true
            limit := some { thisSlot := none, exprSlot := some (.lit true 1000) }
            body := [.node []] }

/-! ## Audit tail of the pipeline (`app/audit.py`, `app/pipeline.py`)

After the synthesis stage succeeds, `QueryPipeline.handle` increments the success
counter, calls `self._audit.write(payload)` and then builds the `QueryResponse`.
Neither `handle` nor `AuditLogger.write` wraps the file append in a try/except,
so an `OSError` raised by the append propagates out of `handle`. -/

structure QueryResponse where
  answer : String
  sql : String

/-- Outcome of the file append inside `AuditLogger.write`. -/
inductive AuditOutcome where
  | ok
  | ioError

/-- The tail of `QueryPipeline.handle` once `execution_result` and `answer` are
available: write the audit entry, then return the response.  The `ioError` branch
reflects the absence of any exception handler around the write. -/
def handleAfterSynthesis (resp : QueryResponse) (audit : AuditOutcome) :
    Except String QueryResponse :=
  match audit with
  | .ok => .ok resp
  | .ioError => .error "OSError: audit write failed"

/-! ## Schema extractor single flight (`app/schema_extractor.py`)

`get_schema_snapshot` is modelled per process for one connection: the state holds
the cached snapshot (`none` for the initial falsy `{}`), the timestamp of the
last collect, and how many times `_collect` has run.  `collect k` is the snapshot
produced by the `k`-th collect.

With `refresh=True` the pre-lock test `refresh or self._is_stale()` short-circuits
without reading shared state, and every other read or write of shared state
happens inside the mutex, so any interleaving of N concurrent forced-refresh
calls is equivalent to running the N bodies one after another — which is what
`runForcedRefreshes` does. -/

structure ExtractorState (σ : Type) where
  snapshot : Option σ
  timestamp : Option ℚ
  collectCount : Nat

/-- `SchemaExtractor._is_stale`: true when the snapshot is empty or the timestamp
is unset or older than `refresh_interval_s`. -/
def isStale {σ : Type} (refreshInterval : ℚ) (st : ExtractorState σ) (now : ℚ) : Bool :=
  match st.snapshot, st.timestamp with
  | none, _ => true
  | some _, none => true
  | some _, some ts => decide (now - ts > refreshInterval)

/-- `SchemaExtractor.get_schema_snapshot`: test `refresh or stale`, and under the
lock re-test the same condition (note the recheck re-uses the caller's own
`refresh` argument) before running `_collect` and storing snapshot and
timestamp.  The Python method then executes `return self._snapshot` after the
lock is released; in the serialized composition modelled here that read yields
the value just stored. -/
def getSchemaSnapshot {σ : Type} (refreshInterval : ℚ) (collect : Nat → σ)
    (st : ExtractorState σ) (refresh : Bool) (now : ℚ) : Option σ × ExtractorState σ :=
  if refresh || isStale refreshInterval st now then
    if refresh || isStale refreshInterval st now then
      let snap := collect st.collectCount
      (some snap, { snapshot := some snap, timestamp := some now,
                    collectCount := st.collectCount + 1 })
    else (st.snapshot, st)
  else (st.snapshot, st)

/-- N concurrent `get_schema_snapshot(conn, refresh=True)` calls, serialized by
the extractor's mutex (and additionally by the pipeline's schema lock). -/
def runForcedRefreshes {σ : Type} (refreshInterval : ℚ) (collect : Nat → σ) (now : ℚ) :
    Nat → ExtractorState σ → ExtractorState σ
  | 0, st => st
  | n + 1, st =>
      runForcedRefreshes refreshInterval collect now n
        (getSchemaSnapshot refreshInterval collect st true now).2

/-- The initial extractor state: `self._snapshot = {}`, `self._timestamp = None`. -/
def initialExtractorState : ExtractorState Nat :=
  { snapshot := none, timestamp := none, collectCount := 0 }

/-! ## Theorems -/

theorem guardrailCheck_eq (cfg : SQLGuardrailConfig) (plan : ExplainPlan) :
    guardrailCheck cfg plan = (applyRules cfg (extractMetrics plan), extractMetrics plan) := rfl

/-- C3: `guardrail_check` returns `allowed = false` exactly when the extracted
metrics violate one of the three rules — rows above `row_threshold`, cost above
`cost_threshold`, or a case-insensitive "seq scan" root with rows above a tenth
of `row_threshold` — and it returns the computed metrics in both the allowed and
the rejected case. -/
theorem c3_guardrail_rules (cfg : SQLGuardrailConfig) (plan : ExplainPlan) :
    ((guardrailCheck cfg plan).1 = false ↔
      ((extractMetrics plan).planRows > cfg.rowThreshold ∨
       (extractMetrics plan).totalCost > cfg.costThreshold ∨
       (strLower (extractMetrics plan).nodeType = "seq scan" ∧
        (extractMetrics plan).planRows > cfg.rowThreshold / 10))) ∧
    (guardrailCheck cfg plan).2 = extractMetrics plan := by
  rw [guardrailCheck_eq]
  refine ⟨?_, rfl⟩
  unfold applyRules
  split_ifs with h1 h2 h3
  · simp [h1]
  · simp [Or.inr (Or.inl h2)]
  · simp [Or.inr (Or.inr h3)]
  · simp only [Bool.true_eq_false, false_iff]
    rintro (h | h | h)
    · exact h1 h
    · exact h2 h
    · exact h3 h

/-- C10: a decoded EXPLAIN output with no `"Plan"` object extracts the default
metrics `(0, 0, 0, "")`, a `"Plan"` object substitutes the per-key defaults for
each missing key, and with all three rule inputs defaulted no rejection rule
fires, so a malformed or empty plan is always allowed (the thresholds are
positive by config validation; nonnegativity suffices). -/
theorem c10_malformed_plan_allowed (cfg : SQLGuardrailConfig)
    (hrow : 0 ≤ cfg.rowThreshold) (hcost : 0 ≤ cfg.costThreshold) :
    extractMetrics none = { planRows := 0, planWidth := 0, totalCost := 0, nodeType := "" } ∧
    (∀ obj : PlanObj, extractMetrics (some obj) =
      { planRows := obj.planRows.getD 0, planWidth := obj.planWidth.getD 0,
        totalCost := obj.totalCost.getD 0, nodeType := obj.nodeType.getD "" }) ∧
    (guardrailCheck cfg none).1 = true ∧
    (∀ obj : PlanObj, obj.planRows = none → obj.totalCost = none → obj.nodeType = none →
      (guardrailCheck cfg (some obj)).1 = true) := by
  have hdef : ∀ m : GuardMetrics, m.planRows = 0 → m.totalCost = 0 → m.nodeType = "" →
      applyRules cfg m = true := by
    intro m h1 h2 h3
    unfold applyRules
    rw [h1, h2, h3]
    have e1 : ¬ ((0 : ℚ) > cfg.rowThreshold) := not_lt.mpr hrow
    have e2 : ¬ ((0 : ℚ) > cfg.costThreshold) := not_lt.mpr hcost
    have e3 : ¬ (strLower "" = "seq scan") := by decide
    simp [e1, e2, e3]
  refine ⟨rfl, fun obj => rfl, ?_, ?_⟩
  · rw [guardrailCheck_eq]
    exact hdef _ rfl rfl rfl
  · intro obj h1 h2 h3
    rw [guardrailCheck_eq]
    exact hdef _ (by simp [extractMetrics, h1]) (by simp [extractMetrics, h2])
      (by simp [extractMetrics, h3])

theorem c10_witness :
    (guardrailCheck { rowThreshold := 500000, costThreshold := 100000,
                      disallowedFunctions := [] } none).1 = true :=
  (c10_malformed_plan_allowed _ (by norm_num) (by norm_num)).2.2.1

/-- C2: the code diverges from the claim.  On the repository's own fixture
`SELECT id FROM users LIMIT 1000` with `max_limit = 100`, `_enforce_limit` reads
`value = limit.this`, which a parsed LIMIT leaves as `None` (sqlglot stores the
count in the `expression` arg), so validation raises
`SQLValidationError("LIMIT must be numeric literal")` instead of clamping to
`LIMIT 100` as the claim, spec scenario S3 and `test_clamps_limit` require. -/
theorem c2_limit_clamp_raises :
    validateAndSanitize 100 ["pg_sleep"] parsedSelectLimit1000 =
      Except.error "LIMIT must be numeric literal" := rfl

/-- C8: the code diverges from the claim.  `QueryPipeline.handle` calls
`self._audit.write(...)` with no surrounding try/except and `AuditLogger.write`
has none either, so an I/O error raised while appending the audit entry
propagates and the successful response is never returned (the claim and spec
require log-and-swallow). -/
theorem c8_audit_failure_fails_request :
    handleAfterSynthesis { answer := "Returned 1 rows.", sql := "SELECT 1" } .ioError =
      Except.error "OSError: audit write failed" := rfl

/-- C9 counterexample: two serialized forced-refresh calls (the lock admits the
bodies one at a time, and with `refresh=True` both rechecks pass) run `_collect`
twice, so the extractor is not called exactly once under N = 2 concurrent
requests. -/
theorem c9_counterexample :
    (runForcedRefreshes 3600 (fun k => k) 0 2 initialExtractorState).collectCount ≠ 1 := by
  decide

/-- C9 (amended): under forced refresh, each of the N concurrent
`get_schema_snapshot` calls runs `_collect` once — N collections in total,
serialized by the extractor's mutex so at most one extraction is live at any
moment; the exactly-once guarantee does not hold. -/
theorem c9_forced_refresh_collect_count {σ : Type} (refreshInterval : ℚ) (collect : Nat → σ)
    (now : ℚ) (n : Nat) (st : ExtractorState σ) :
    (runForcedRefreshes refreshInterval collect now n st).collectCount =
      st.collectCount + n := by
  induction n generalizing st with
  | zero => rfl
  | succ k ih =>
      rw [runForcedRefreshes]
      rw [ih]
      simp [getSchemaSnapshot]
      omega

theorem checkRelevantTables_ok_iff (allowed : List String) (ts : List String) :
    checkRelevantTables allowed ts = .ok () ↔ ∀ t ∈ ts, t ∈ allowed := by
  induction ts with
  | nil => simp [checkRelevantTables]
  | cons t rest ih =>
      by_cases h : allowed.contains t
      · rw [checkRelevantTables, if_pos h, ih]
        simp [List.elem_iff.mp h]
      · rw [checkRelevantTables, if_neg h]
        simp only [List.mem_cons]
        constructor
        · intro he; cases he
        · intro hall
          exact absurd (List.elem_iff.mpr (hall t (Or.inl rfl))) h

theorem checkColumns_ok_iff (table : String) (allowed : List String) (cols : List String) :
    checkColumns table allowed cols = .ok () ↔ ∀ c ∈ cols, c ∈ allowed := by
  induction cols with
  | nil => simp [checkColumns]
  | cons c rest ih =>
      by_cases h : allowed.contains c
      · rw [checkColumns, if_pos h, ih]
        simp [List.elem_iff.mp h]
      · rw [checkColumns, if_neg h]
        simp only [List.mem_cons]
        constructor
        · intro he; cases he
        · intro hall
          exact absurd (List.elem_iff.mpr (hall c (Or.inl rfl))) h

theorem checkSchemaContext_ok_iff (slice : List (String × List String)) (allowed : List String)
    (ctx : List (String × List String)) :
    checkSchemaContext slice allowed ctx = .ok () ↔
      ∀ p ∈ ctx, p.1 ∈ allowed ∧ ∀ c ∈ p.2, c ∈ (slice.lookup p.1).getD [] := by
  induction ctx with
  | nil => simp [checkSchemaContext]
  | cons p rest ih =>
      obtain ⟨t, cols⟩ := p
      by_cases ht : allowed.contains t
      · rw [checkSchemaContext, if_pos ht]
        cases hc : checkColumns t ((slice.lookup t).getD []) cols with
        | ok u =>
            cases u
            rw [ih]
            have hcols := (checkColumns_ok_iff t ((slice.lookup t).getD []) cols).mp hc
            simp only [List.mem_cons]
            constructor
            · intro hrest q hq
              rcases hq with hq | hq
              · subst hq; exact ⟨List.elem_iff.mp ht, hcols⟩
              · exact hrest q hq
            · intro hall q hq
              exact hall q (Or.inr hq)
        | error e =>
            simp only [List.mem_cons]
            constructor
            · intro he; cases he
            · intro hall
              have := (checkColumns_ok_iff t ((slice.lookup t).getD []) cols).mpr
                (hall (t, cols) (Or.inl rfl)).2
              rw [hc] at this; cases this
      · rw [checkSchemaContext, if_neg ht]
        simp only [List.mem_cons]
        constructor
        · intro he; cases he
        · intro hall
          exact absurd (List.elem_iff.mpr (hall (t, cols) (Or.inl rfl)).1) ht

/-- C5: `reason_schema_with_llm` returns a result exactly when the structural
validation produced no errors and every table named in `relevant_tables`, every
key of `schema_context` and every column listed there lies inside the schema
slice; any out-of-bounds reference makes it raise instead of returning. -/
theorem c5_reasoner_bounds (structuralErrors : List String) (result : ReasonerOutput)
    (slice : SchemaSliceTables) (r : ReasonerOutput) :
    reasonSchemaWithLlm structuralErrors result slice = .ok r ↔
      (structuralErrors = [] ∧ r = result ∧
       (∀ t ∈ result.relevantTables, t ∈ slice.tables.map Prod.fst) ∧
       (∀ p ∈ result.schemaContext, p.1 ∈ slice.tables.map Prod.fst ∧
         ∀ c ∈ p.2, c ∈ (slice.tables.lookup p.1).getD [])) := by
  unfold reasonSchemaWithLlm enforceSchemaBounds
  by_cases he : structuralErrors.isEmpty
  · rw [if_pos he]
    have hel : structuralErrors = [] := List.isEmpty_iff.mp he
    cases h1 : checkRelevantTables (slice.tables.map Prod.fst) result.relevantTables with
    | ok u =>
        cases u
        cases h2 : checkSchemaContext slice.tables (slice.tables.map Prod.fst)
            result.schemaContext with
        | ok u' =>
            cases u'
            simp only [h1, h2, hel, true_and, Except.ok.injEq]
            constructor
            · intro hr
              exact ⟨hr.symm, (checkRelevantTables_ok_iff _ _).mp h1,
                (checkSchemaContext_ok_iff _ _ _).mp h2⟩
            · intro hr; exact hr.1.symm
        | error e =>
            simp only [h1, h2, hel, true_and]
            constructor
            · intro he'; cases he'
            · intro hr
              have := (checkSchemaContext_ok_iff slice.tables _ _).mpr hr.2.2
              rw [h2] at this; cases this
    | error e =>
        simp only [h1, hel, true_and]
        constructor
        · intro he'; cases he'
        · intro hr
          have := (checkRelevantTables_ok_iff (slice.tables.map Prod.fst) _).mpr hr.2.1
          rw [h1] at this; cases this
  · rw [if_neg he]
    constructor
    · intro he'; cases he'
    · intro hr
      exact absurd (List.isEmpty_iff.mpr hr.1) he

theorem sumSizes_nil {μ : Type} (size : μ → Nat) : sumSizes size [] = 0 := rfl

theorem sumSizes_cons {μ : Type} (size : μ → Nat) (k : String) (v : μ)
    (l : List (String × μ)) :
    sumSizes size ((k, v) :: l) = size v + sumSizes size l := by
  simp [sumSizes]

theorem sumSizes_dictInsert_le {μ : Type} (size : μ → Nat) (k : String) (v : μ)
    (d : List (String × μ)) :
    sumSizes size (dictInsert k v d) ≤ sumSizes size d + size v := by
  induction d with
  | nil => simp [dictInsert, sumSizes]
  | cons p rest ih =>
      obtain ⟨k', v'⟩ := p
      by_cases h : k' = k
      · rw [dictInsert, if_pos h, sumSizes_cons, sumSizes_cons]
        omega
      · rw [dictInsert, if_neg h, sumSizes_cons, sumSizes_cons]
        have := ih
        omega

theorem sliceLoop_sumSizes_le {μ : Type} (size : μ → Nat) (falsy : μ → Bool)
    (tables : List (String × μ)) (maxBytes : Nat) (ids : List String) :
    ∀ (total : Nat) (acc : List (String × μ)),
      sumSizes size acc ≤ total → total ≤ maxBytes →
      sumSizes size (sliceLoop size falsy tables maxBytes ids total acc) ≤ maxBytes := by
  induction ids with
  | nil =>
      intro total acc h1 h2
      rw [sliceLoop]
      omega
  | cons tid rest ih =>
      intro total acc h1 h2
      rw [sliceLoop]
      cases h : tables.lookup tid with
      | none => exact ih total acc h1 h2
      | some meta =>
          by_cases hf : falsy meta
          · simp only [hf, if_pos rfl]
            exact ih total acc h1 h2
          · simp only [hf]
            by_cases hb : total + size meta > maxBytes
            · simp only [if_neg (by simp : ¬ (false = true)), if_pos hb]
              omega
            · simp only [if_neg (by simp : ¬ (false = true)), if_neg hb]
              refine ih _ _ ?_ (by omega)
              calc sumSizes size (dictInsert tid meta acc)
                  ≤ sumSizes size acc + size meta := sumSizes_dictInsert_le size tid meta acc
                _ ≤ total + size meta := by omega

/-- C6: `select_schema_slice` walks the ranked ids accumulating each included
table's serialized byte length, includes a table exactly while the running total
stays within `max_schema_slice_bytes` and breaks at the first exceedance, so the
total serialized size of the returned slice tables never exceeds the budget. -/
theorem c6_slice_byte_budget {μ : Type} (size : μ → Nat) (falsy : μ → Bool)
    (snapshot : Snapshot μ) (tableIds : List String) (maxBytes : Nat) :
    sumSizes size (selectSchemaSlice size falsy snapshot tableIds maxBytes).tables ≤
      maxBytes := by
  have h : (selectSchemaSlice size falsy snapshot tableIds maxBytes).tables =
      sliceLoop size falsy snapshot.tables maxBytes tableIds 0 [] := rfl
  rw [h]
  exact sliceLoop_sumSizes_le size falsy snapshot.tables maxBytes tableIds 0 []
    (by rw [sumSizes_nil]) (Nat.zero_le _)

/-- C7: the WHERE clauses of the SQL produced by `SQLGenerator.generate` are
exactly those of the stated heuristics on the lower-cased intent — the interval
clause (with the captured day count, default 30), the `status = 'active'` clause,
and the ISO-date clause with parse failures silently skipped — in that order;
the produced SQL is the composition of the select columns, the FROM clause and
precisely that clause list. -/
theorem c7_where_clauses (queryIntent : String) :
    buildWhereClauses queryIntent = whereClausesSpec queryIntent ∧
    ∀ (sampleLimit : Nat) (schemaContext : List (String × List String))
      (relevantTables : List String)
      (foreignKeysMap : List (String × String × String × String)),
      Except.map (fun plan => plan.sql)
          (generate sampleLimit queryIntent schemaContext relevantTables foreignKeysMap) =
        Except.map (fun fromClause =>
            composeSql (buildSelectColumns schemaContext relevantTables) fromClause
              (whereClausesSpec queryIntent) sampleLimit)
          (buildFromClause relevantTables foreignKeysMap) := by
  have h1 : buildWhereClauses queryIntent = whereClausesSpec queryIntent := by
    unfold buildWhereClauses whereClausesSpec
    by_cases hld : strContains (strLower queryIntent) "last" &&
        strContains (strLower queryIntent) "day"
    all_goals by_cases ha : strContains (strLower queryIntent) "active"
    all_goals cases hdt : findIsoDate (strLower queryIntent).data with
      | none => simp [hld, ha, hdt]
      | some r =>
          obtain ⟨y, m, d, s⟩ := r
          by_cases hv : validYmd y m d
          · simp [hld, ha, hdt, hv]
          · simp [hld, ha, hdt, hv]
  refine ⟨h1, ?_⟩
  intro sampleLimit schemaContext relevantTables foreignKeysMap
  unfold generate
  cases hf : buildFromClause relevantTables foreignKeysMap with
  | error e => rfl
  | ok fromClause => simp [Except.map, h1]

theorem dropWhile_eq_self_of_not {p : ℚ → Bool} (q : List ℚ) (h : ∀ x ∈ q, p x = false) :
    q.dropWhile p = q := by
  cases q with
  | nil => rfl
  | cons a l =>
      rw [List.dropWhile_cons, h a (List.mem_cons_self a l)]
      simp

theorem dropWhile_eq_nil_of_all {p : ℚ → Bool} (q : List ℚ) (h : ∀ x ∈ q, p x = true) :
    q.dropWhile p = [] := by
  induction q with
  | nil => rfl
  | cons a l ih =>
      rw [List.dropWhile_cons, h a (List.mem_cons_self a l)]
      simp only [if_pos rfl]
      exact ih (fun x hx => h x (List.mem_cons_of_mem a hx))

theorem allowStep_no_evict (cfg : SecurityConfig) (hEn : cfg.enableRateLimiting = true)
    (q : List ℚ) (now : ℚ) (h : ∀ x ∈ q, ¬ x < now - rateWindow) :
    allowStep cfg q now =
      if cfg.maxRequestsPerMinute ≤ q.length then (false, q) else (true, q ++ [now]) := by
  unfold allowStep
  have hq : q.dropWhile (fun t => decide (t < now - rateWindow)) = q :=
    dropWhile_eq_self_of_not q (fun x hx => decide_eq_false (h x hx))
  simp [hEn, hq]

theorem runAllows_formula (cfg : SecurityConfig) (hEn : cfg.enableRateLimiting = true) :
    ∀ (ts q : List ℚ),
      (∀ x ∈ q, ∀ t ∈ ts, ¬ x < t - rateWindow) →
      (∀ a ∈ ts, ∀ b ∈ ts, ¬ a < b - rateWindow) →
      (runAllows cfg q ts).1 =
        (List.range ts.length).map
          (fun i => decide (q.length + i < cfg.maxRequestsPerMinute)) := by
  intro ts
  induction ts with
  | nil => intro q _ _; rfl
  | cons t rest ih =>
      intro q h1 h2
      rw [runAllows]
      rw [allowStep_no_evict cfg hEn q t (fun x hx => h1 x hx t (List.mem_cons_self t rest))]
      rw [List.length_cons, List.range_succ_eq_map, List.map_cons, List.map_map]
      by_cases hfull : cfg.maxRequestsPerMinute ≤ q.length
      · rw [if_pos hfull]
        have tail := ih q
          (fun x hx t' ht' => h1 x hx t' (List.mem_cons_of_mem t ht'))
          (fun a ha b hb => h2 a (List.mem_cons_of_mem t ha) b (List.mem_cons_of_mem t hb))
        show false :: (runAllows cfg q rest).1 = _
        rw [tail]
        congr 1
        · exact (decide_eq_false (by omega)).symm
        · refine List.map_congr_left (fun i hi => ?_)
          exact decide_eq_decide.mpr (by constructor <;> (intro; omega))
      · rw [if_neg hfull]
        have tail := ih (q ++ [t])
          (fun x hx t' ht' => by
            rcases List.mem_append.mp hx with hx' | hx'
            · exact h1 x hx' t' (List.mem_cons_of_mem t ht')
            · have : x = t := List.mem_singleton.mp hx'
              subst this
              exact h2 x (List.mem_cons_self x rest) t' (List.mem_cons_of_mem x ht'))
          (fun a ha b hb => h2 a (List.mem_cons_of_mem t ha) b (List.mem_cons_of_mem t hb))
        show true :: (runAllows cfg (q ++ [t]) rest).1 = _
        rw [tail]
        congr 1
        · exact (decide_eq_true (by omega)).symm
        · refine List.map_congr_left (fun i hi => ?_)
          rw [List.length_append, List.length_singleton]
          exact decide_eq_decide.mpr (by constructor <;> (intro; omega))

/-- C4: with rate limiting enabled and window W = `max_requests_per_minute`, a
burst of W+1 `allow` calls for one key whose times all lie within 60 seconds of
each other yields W grants followed by a rejection; after more than 60 seconds
of quiescence the next call evicts the whole deque and is granted; and with
`enable_rate_limiting=false` every call is granted without touching the deque. -/
theorem c4_rate_limiter (cfg : SecurityConfig) :
    (cfg.enableRateLimiting = true →
      (∀ ts : List ℚ, (∀ a ∈ ts, ∀ b ∈ ts, b - rateWindow ≤ a) →
        ts.length = cfg.maxRequestsPerMinute + 1 →
        (runAllows cfg [] ts).1 =
          List.replicate cfg.maxRequestsPerMinute true ++ [false]) ∧
      (∀ (q : List ℚ) (lastT now : ℚ), 1 ≤ cfg.maxRequestsPerMinute →
        (∀ x ∈ q, x ≤ lastT) → lastT + rateWindow < now →
        allowStep cfg q now = (true, [now]))) ∧
    (cfg.enableRateLimiting = false →
      ∀ (q : List ℚ) (now : ℚ), allowStep cfg q now = (true, q)) := by
  refine ⟨fun hEn => ⟨?_, ?_⟩, fun hDis => ?_⟩
  · intro ts hspan hlen
    have hform := runAllows_formula cfg hEn ts []
      (fun x hx => absurd hx (List.not_mem_nil x))
      (fun a ha b hb => not_lt.mpr (hspan a ha b hb))
    rw [hform, hlen, List.range_succ, List.map_append]
    simp only [List.length_nil, Nat.zero_add]
    congr 1
    · refine List.eq_replicate_iff.mpr ⟨by simp, fun b hb => ?_⟩
      rcases List.mem_map.mp hb with ⟨i, hi, rfl⟩
      have := List.mem_range.mp hi
      exact decide_eq_true (by omega)
    · simp only [List.map_cons, List.map_nil]
      congr 1
      exact decide_eq_false (by omega)
  · intro q lastT now hW hq hlt
    unfold allowStep
    have hall : q.dropWhile (fun t => decide (t < now - rateWindow)) = [] :=
      dropWhile_eq_nil_of_all q
        (fun x hx => decide_eq_true (by have := hq x hx; linarith))
    simp [hEn, hall]
    omega
  · intro q now
    unfold allowStep
    simp [hDis]

theorem c4_witness :
    (runAllows { enableRateLimiting := true, maxRequestsPerMinute := 2 } []
        [(0 : ℚ), 30, 60]).1 = List.replicate 2 true ++ [false] := by
  refine ((c4_rate_limiter _).1 rfl).1 [0, 30, 60] ?_ rfl
  intro a ha b hb
  fin_cases ha <;> fin_cases hb <;> norm_num [rateWindow]

/-- C1: `validate_and_sanitize` raises when the parsed top-level node is not a
SELECT, raises when the SELECT has no FROM clause, raises when (after the limit
stage, which may only add numeric literals) the walked AST contains a function
node whose lower-cased name is in the lower-cased `disallowed_functions`, and
for every input violating none of these conditions — with a LIMIT the limit
stage admits — returns the re-rendered SQL without raising. -/
theorem c1_validator_conditions (maxLimit : Nat) (disallowed : List String) :
    (∀ children, validateAndSanitize maxLimit disallowed (.nonSelect children) =
        .error "Only SELECT statements are allowed") ∧
    (∀ s : SelectNode, s.hasFrom = false →
        validateAndSanitize maxLimit disallowed (.select s) =
          .error "SELECT must include FROM clause") ∧
    (∀ s s' : SelectNode, s.hasFrom = true → enforceLimit maxLimit s = .ok s' →
        s'.hasDisallowedFunc (disallowed.map strLower) = true →
        validateAndSanitize maxLimit disallowed (.select s) =
          .error "Function is not allowed") ∧
    (∀ s s' : SelectNode, s.hasFrom = true → enforceLimit maxLimit s = .ok s' →
        s'.hasDisallowedFunc (disallowed.map strLower) = false →
        validateAndSanitize maxLimit disallowed (.select s) = .ok s'.render) := by
  refine ⟨fun children => rfl, ?_, ?_, ?_⟩
  · intro s hs
    unfold validateAndSanitize enforceSelectOnly
    simp [hs]
  · intro s s' hf hl hd
    unfold validateAndSanitize enforceSelectOnly
    simp only [if_pos hf, hl]
    unfold enforceDisallowedFunctions
    simp [hd]
  · intro s s' hf hl hd
    unfold validateAndSanitize enforceSelectOnly
    simp only [if_pos hf, hl]
    unfold enforceDisallowedFunctions
    simp [hd]

theorem c1_witness :
    validateAndSanitize 100 ["pg_sleep"]
        (.select { hasFrom := true, limit := none,
                   body := [.func "PG_SLEEP" [.lit true 1]] }) =
      Except.error "Function is not allowed" :=
  (c1_validator_conditions 100 ["pg_sleep"]).2.2.1
    { hasFrom := true, limit := none, body := [.func "PG_SLEEP" [.lit true 1]] }
    { hasFrom := true,
      limit := some { thisSlot := some (.lit true 100), exprSlot := none },
      body := [.func "PG_SLEEP" [.lit true 1]] }
    rfl rfl (by decide)

end Spec2Proof
